import Mathlib

/-! Shallow embedding of the energy-aware scheduling model construction code
    (the energy.c source file and include/linux/sched/energy.h).

    Design of the embedding:
    - C unsigned long values are Nat; at every operation where a C unsigned
      long can wrap (the capacity product, the efficiency shift, the
      frequency increment, the utilization inflation) the result is reduced
      modulo 2 ^ w, where w is the word width kept as a parameter.
    - Every fallible platform collaborator call (device lookup, OPP count,
      floor and ceiling frequency search, sharing-cpus query, allocation
      success) is an oracle field of a record; an erroring C call is
      modelled by the oracle returning none (or false for allocations).
    - Heap identity is modelled by numeric ids drawn from a counter in the
      global state, and alloc and free events are recorded, so that the
      properties freed-at-most-once and zero-net-allocation are statable. -/

/-- The struct capacity_state of include/linux/sched/energy.h: one table
entry, a compute capacity and the power consumed at that capacity. -/
structure capacity_state where
  cap : Nat
  power : Nat
deriving DecidableEq, Repr

/-- The struct sched_energy_model of include/linux/sched/energy.h: the
entry count (an int in C) and the table of capacity states. -/
structure sched_energy_model where
  nr_cap_states : Int
  cap_states : List capacity_state
deriving DecidableEq, Repr

/-- The struct freq_domain of include/linux/sched/energy.h. The list_head
is implicit in the containing list; fid is the heap identity of the
kzalloc-ed record, added by the embedding so that freeing is observable. -/
structure freq_domain where
  fid : Nat
  span : List Nat
deriving DecidableEq, Repr

/-- cpumask_first over a span modelled as a list of cpu numbers: the least
member, and nr_cpu_ids (here n) for the empty mask. -/
def cpumask_first (n : Nat) (sp : List Nat) : Nat :=
  sp.foldr min n

/-- Platform collaborator oracle for build_energy_model, one record per
candidate cpu. Each field is the outcome of one C call made by the code:
get_cpu_device, arch_scale_cpu_capacity, dev_pm_opp_get_opp_count,
dev_pm_opp_find_freq_floor, dev_pm_opp_find_freq_ceil (the resolved
frequency written back through the pointer, none when IS_ERR),
dev_pm_opp_get_power keyed by the resolved frequency of the OPP, and the
success of the two allocations done by the builder. -/
structure BuildPlatform where
  dev_ok : Bool
  cap_scale : Nat
  opp_count : Int
  freq_floor : Nat → Option Nat
  freq_ceil : Nat → Option Nat
  power_of : Nat → Nat
  em_alloc_ok : Bool
  cs_alloc_ok : Bool

/-- Result of one run of build_energy_model: the returned model (none for
the constructed-nothing NULL return), the number of pr_warn calls made for
efficiency-ratio violations, and the allocation and free counts for the em
record and for the cap_states table. -/
structure BuildOut where
  em : Option sched_energy_model
  warns : Nat
  em_alloc : Nat
  cs_alloc : Nat
  em_free : Nat
  cs_free : Nat
deriving DecidableEq, Repr

/-- The for loop of build_energy_model. Arguments after the platform:
remaining iteration count, the freq variable at loop entry, prev_opp_eff,
the entries built so far (reversed), and the warning count so far. Returns
the final table (none when the loop hit a fatal failure, the goto to
free_cs) together with the warning count. Mirrors, per iteration:
dev_pm_opp_find_freq_ceil, dev_pm_opp_get_power, the fatal zero-power and
zero-frequency check, the capacity computation, the efficiency-ratio
warning, and the freq++ increment of the loop header. -/
def build_loop (w cap_scale max_freq : Nat) (p : BuildPlatform) :
    Nat → Nat → Nat → List capacity_state → Nat →
    Option (List capacity_state) × Nat
  | 0, _freq, _prev, acc, warns => (some acc.reverse, warns)
  | k + 1, freq, prev, acc, warns =>
    match p.freq_ceil freq with
    | none => (none, warns)
    | some f =>
      let power := p.power_of f
      if power = 0 ∨ f = 0 then (none, warns)
      else
        let cap := f * cap_scale % 2 ^ w / max_freq
        let eff := cap * 2 ^ 20 % 2 ^ w / power
        let warns2 := if prev ≤ eff then warns + 1 else warns
        build_loop w cap_scale max_freq p k ((f + 1) % 2 ^ w) eff
          (⟨cap, power⟩ :: acc) warns2

/-- The function build_energy_model of energy.c, step by step: device
lookup, OPP count check, max frequency floor search from ULONG_MAX
(modelled as 2 ^ w - 1) with its zero check, the two allocations with
their failure paths (goto free_em frees only the em record), the OPP walk,
and on success the nr_cap_states assignment and the return of the model. -/
def build_energy_model (w : Nat) (p : BuildPlatform) : BuildOut :=
  if p.dev_ok = false then ⟨none, 0, 0, 0, 0, 0⟩
  else if p.opp_count ≤ 0 then ⟨none, 0, 0, 0, 0, 0⟩
  else
    match p.freq_floor (2 ^ w - 1) with
    | none => ⟨none, 0, 0, 0, 0, 0⟩
    | some max_freq =>
      if max_freq = 0 then ⟨none, 0, 0, 0, 0, 0⟩
      else if p.em_alloc_ok = false then ⟨none, 0, 0, 0, 0, 0⟩
      else if p.cs_alloc_ok = false then ⟨none, 0, 1, 0, 1, 0⟩
      else
        match build_loop w p.cap_scale max_freq p p.opp_count.toNat 0
            (2 ^ w - 1) [] 0 with
        | (none, warns) => ⟨none, warns, 1, 1, 1, 1⟩
        | (some cs, warns) => ⟨some ⟨p.opp_count, cs⟩, warns, 1, 1, 0, 0⟩

/-- The utilization inflation of find_cap_state: util += util >> 2 in
w-bit unsigned arithmetic. -/
def adjust_util (w u : Nat) : Nat :=
  (u + u / 4) % 2 ^ w

/-- The scan loop of find_cap_state: cs walks the entries in ascending
index order, breaking at the first entry whose cap is at least util; when
no entry qualifies, cs is left pointing at the last entry; on an empty
table cs stays NULL (none). -/
def find_cs_go (util : Nat) : List capacity_state → Option capacity_state
  | [] => none
  | [c] => some c
  | c :: c2 :: cs =>
    if util ≤ c.cap then some c else find_cs_go util (c2 :: cs)

/-- The function find_cap_state of include/linux/sched/energy.h, reading
one model directly (the per-cpu indirection is the publisher state, kept
separate): inflate utilization by 25 percent in w-bit arithmetic, then
scan nr_cap_states entries in ascending order. -/
def find_cap_state (w : Nat) (em : sched_energy_model) (util : Nat) :
    Option capacity_state :=
  find_cs_go (adjust_util w (util % 2 ^ w))
    (em.cap_states.take em.nr_cap_states.toNat)

/-- The ascending OPP walk that the builder loop performs: from a start
frequency, repeatedly resolve the ceiling search and restart just above
the resolved frequency (with the w-bit wrap of the freq++ increment). The
list collects the resolved frequencies; it is cut short if a search errs. -/
def ceil_walk (w : Nat) (ceil : Nat → Option Nat) : Nat → Nat → List Nat
  | 0, _ => []
  | k + 1, f =>
    match ceil f with
    | none => []
    | some g => g :: ceil_walk w ceil k ((g + 1) % 2 ^ w)

/-- Process-wide state touched by init_sched_energy and read by the query
facade: the static key sched_energy_present, the per-cpu energy_model
mapping (none while unallocated or after free_percpu; slots hold the heap
id of the shared model), the sched_freq_domains list, and the heap
bookkeeping of the embedding: live em allocations with their contents,
live freq_domain allocations, the sequences of kfree calls on em records
and on freq_domain records, and the fresh-id counter. -/
structure GState where
  sched_energy_present : Bool
  energy_model : Option (List (Option Nat))
  sched_freq_domains : List freq_domain
  em_heap : List (Nat × sched_energy_model)
  live_fdoms : List Nat
  freed_ems : List Nat
  freed_fdoms : List Nat
  next_id : Nat
deriving DecidableEq

/-- The pristine global state before any construction attempt: static key
false, no per-cpu table, empty domain list, nothing allocated. -/
def init0 : GState :=
  ⟨false, none, [], [], [], [], [], 0⟩

/-- The state right after alloc_percpu succeeded: the pristine state plus
a zero-initialized per-cpu table of n slots. -/
def init_tbl0 (n : Nat) : GState :=
  { init0 with energy_model := some (List.replicate n none) }

/-- Collaborator oracle for one run of init_sched_energy: the asymmetry
precondition (lowest_flag_domain for SD_ASYM_CPUCAPACITY being non-NULL),
alloc_percpu success, per-cpu kzalloc success for the freq_domain record,
the dev_pm_opp_get_sharing_cpus outcome per cpu (none for a nonzero error
return), and the outcome of build_energy_model per representative cpu. -/
structure InitOracle where
  sd_asym : Bool
  percpu_ok : Bool
  fdom_ok : Nat → Bool
  sharing : Nat → Option (List Nat)
  build : Nat → Option sched_energy_model

/-- The loop body of free_energy_model: walk the domain list; for each
domain read the model pointer of the first cpu of its span out of the
per-cpu table (the table is not cleared between iterations, exactly as in
the C code, so a model referenced through two domains would be freed
twice), free it if non-NULL, then delete and free the freq_domain record. -/
def free_fdoms (n : Nat) (tbl : List (Option Nat)) :
    List freq_domain → GState → GState
  | [], s => s
  | fd :: rest, s =>
    let s1 :=
      match tbl.getD (cpumask_first n fd.span) none with
      | some mid =>
        { s with
          em_heap := s.em_heap.filter (fun e => e.1 != mid),
          freed_ems := s.freed_ems ++ [mid] }
      | none => s
    let s2 :=
      { s1 with
        live_fdoms := s1.live_fdoms.erase fd.fid,
        freed_fdoms := s1.freed_fdoms ++ [fd.fid] }
    free_fdoms n tbl rest s2

/-- The function free_energy_model of energy.c: walk and empty the domain
list freeing models and records as in free_fdoms, then free_percpu the
mapping table. -/
def free_energy_model (n : Nat) (s : GState) : GState :=
  { free_fdoms n (s.energy_model.getD []) s.sched_freq_domains s with
    sched_freq_domains := [], energy_model := none }

/-- Assignment of one model id to every cpu of a span in the per-cpu
table: the for_each_cpu store loop of init_sched_energy. An index beyond
the table (beyond nr_cpu_ids) cannot occur in a real cpumask; List.set
ignores it. -/
def assign_span (tbl : List (Option Nat)) (sp : List Nat) (mid : Nat) :
    List (Option Nat) :=
  sp.foldl (fun t c => t.set c (some mid)) tbl

/-- One iteration of the for_each_possible_cpu loop of init_sched_energy:
skip a cpu that already has a model; kzalloc the freq_domain record (on
failure, goto free_em); query the sharing cpus (on failure, goto free_em
while the fresh record is not yet on the list); list_add the record; build
the model of the first cpu of the span (on failure, goto free_em); assign
the model to every cpu of the span. Returns the new state and false when
the whole pass must fail. -/
def init_one (n : Nat) (o : InitOracle) (cpu : Nat) (s : GState) :
    GState × Bool :=
  if ((s.energy_model.getD []).getD cpu none).isSome then (s, true)
  else if o.fdom_ok cpu = false then (free_energy_model n s, false)
  else
    match o.sharing cpu with
    | none =>
      (free_energy_model n
        { s with
          next_id := s.next_id + 1,
          live_fdoms := s.next_id :: s.live_fdoms }, false)
    | some sp =>
      match o.build (cpumask_first n sp) with
      | none =>
        (free_energy_model n
          { s with
            next_id := s.next_id + 1,
            live_fdoms := s.next_id :: s.live_fdoms,
            sched_freq_domains :=
              ⟨s.next_id, sp⟩ :: s.sched_freq_domains }, false)
      | some em =>
        ({ s with
            next_id := s.next_id + 1 + 1,
            live_fdoms := s.next_id :: s.live_fdoms,
            sched_freq_domains := ⟨s.next_id, sp⟩ :: s.sched_freq_domains,
            em_heap := (s.next_id + 1, em) :: s.em_heap,
            energy_model := some (assign_span (s.energy_model.getD []) sp
              (s.next_id + 1)) }, true)

/-- The for_each_possible_cpu loop of init_sched_energy over the listed
cpus, stopping at the first failing iteration. -/
def init_cpus (n : Nat) (o : InitOracle) :
    List Nat → GState → GState × Bool
  | [], s => (s, true)
  | cpu :: rest, s =>
    if (init_one n o cpu s).2 then init_cpus n o rest (init_one n o cpu s).1
    else init_one n o cpu s

/-- The function init_sched_energy of energy.c on a system of n possible
cpus: return unchanged when the asymmetry precondition fails; allocate the
zero-initialized per-cpu table (on allocation failure nothing was
allocated and nothing changes); run the per-cpu loop; on success enable
the sched_energy_present static key as the last step. -/
def init_sched_energy (n : Nat) (o : InitOracle) (s : GState) : GState :=
  if o.sd_asym = false then s
  else if o.percpu_ok = false then s
  else if (init_cpus n o (List.range n)
      { s with energy_model := some (List.replicate n none) }).2 then
    { (init_cpus n o (List.range n)
        { s with energy_model := some (List.replicate n none) }).1 with
      sched_energy_present := true }
  else
    (init_cpus n o (List.range n)
      { s with energy_model := some (List.replicate n none) }).1

/-- The function sched_energy_enabled of the header: read the static key. -/
def sched_energy_enabled (s : GState) : Bool :=
  s.sched_energy_present

/-- Sanity contract of the sharing-cpus collaborator, from the data model
of the platform: the spans returned by dev_pm_opp_get_sharing_cpus are the
blocks of a partition of the possible cpus, so a span contains its own
cpu, stays within the possible cpus, and every member of a span reports
that same span. All publisher theorems that need the domains to partition
the units assume it. -/
def SharingOK (o : InitOracle) (n : Nat) : Prop :=
  ∀ c, c < n → ∀ sp, o.sharing c = some sp →
    c ∈ sp ∧ (∀ c2, c2 ∈ sp → c2 < n) ∧
    (∀ c2, c2 ∈ sp → o.sharing c2 = some sp)

/-- Per-domain well-formedness of the live publisher state, tied to the
parallel list of live model allocations: domain k of the list owns model
allocation k; every cpu of its span points at that allocation in the
per-cpu table; the model is exactly what the builder returned for the
first cpu of the span; and the model ids are pairwise distinct. -/
def DomsOK (o : InitOracle) (n : Nat) (tbl : List (Option Nat)) :
    List freq_domain → List (Nat × sched_energy_model) → Prop
  | [], [] => True
  | fd :: fds, m :: ms =>
    fd.span ≠ [] ∧ (∀ c, c ∈ fd.span → c < n) ∧
    (∃ c0, c0 < n ∧ o.sharing c0 = some fd.span) ∧
    (∀ c, c ∈ fd.span → tbl.getD c none = some m.1) ∧
    o.build (cpumask_first n fd.span) = some m.2 ∧
    (∀ e, e ∈ ms → e.1 ≠ m.1) ∧
    DomsOK o n tbl fds ms
  | _, _ => False

/-- Loop invariant of the publisher pass: the per-cpu table is allocated
with one slot per possible cpu, the domain list and the live models are
aligned as in DomsOK, every assigned slot is covered by some recorded
domain span, nothing has been freed, the static key is still off, and all
live model ids are below the id counter. -/
def PassInv (o : InitOracle) (n : Nat) (s : GState) : Prop :=
  ∃ tbl, s.energy_model = some tbl ∧ tbl.length = n ∧
    DomsOK o n tbl s.sched_freq_domains s.em_heap ∧
    (∀ c, c < n → (tbl.getD c none).isSome = true →
       ∃ fd, fd ∈ s.sched_freq_domains ∧ c ∈ fd.span) ∧
    s.freed_ems = [] ∧
    s.sched_energy_present = false ∧
    (∀ e, e ∈ s.em_heap → e.1 < s.next_id)

/-- State shape after a completed rollback: the domain list is empty, the
per-cpu table is gone, no model allocation survives, the static key is
off, and no model record was freed twice. -/
def Rolled (s : GState) : Prop :=
  s.sched_freq_domains = [] ∧ s.energy_model = none ∧ s.em_heap = [] ∧
  s.sched_energy_present = false ∧ s.freed_ems.Nodup

/-- A cpu whose per-cpu mapping slot holds a model reference. -/
def isAssigned (s : GState) (c : Nat) : Prop :=
  ((s.energy_model.getD []).getD c none).isSome = true

/-- Every modeled unit is mapped to a live, fully constructed model: the
right-hand side of the readiness-flag invariant. -/
def FullyMapped (n : Nat) (s : GState) : Prop :=
  ∃ tbl, s.energy_model = some tbl ∧ tbl.length = n ∧
    ∀ c, c < n → ∃ mid em, tbl.getD c none = some mid ∧
      (mid, em) ∈ s.em_heap

/-- States of one process run: the pristine state, and the state left by
the single guarded construction pass, run on a platform whose sharing
collaborator satisfies its partition contract. Construction is build-once
(the spec keeps rebuild and teardown out of scope), so no further
transition exists. -/
inductive Reachable (n : Nat) : GState → Prop
  | boot : Reachable n init0
  | pass (o : InitOracle) (hs : SharingOK o n) :
      Reachable n (init_sched_energy n o init0)

/-- The model table used in the examples of the spec: capacities 100, 300
and 600. -/
def em3 : sched_energy_model :=
  ⟨3, [⟨100, 7⟩, ⟨300, 8⟩, ⟨600, 9⟩]⟩

/-- A platform whose two OPPs (500 MHz and 1000 MHz at equal power) have a
growing capacity-per-power ratio: the non-fatal efficiency anomaly. -/
def pA : BuildPlatform :=
  ⟨true, 1024, 2, fun _ => some 1000,
   fun f => if f ≤ 500 then some 500 else some 1000,
   fun _ => 100, true, true⟩

/-- Platform with a missing device: the first fatal failure of C5. -/
def pDev : BuildPlatform :=
  ⟨false, 1, 1, fun _ => none, fun _ => none, fun _ => 0, true, true⟩

/-- Platform whose ceiling search errs on the first OPP, after the table
has been allocated. -/
def pCF : BuildPlatform :=
  ⟨true, 7, 1, fun _ => some 10, fun _ => none, fun _ => 1, true, true⟩

/-- The single-OPP platform of the C10 witness and the model it builds. -/
def pOk : BuildPlatform :=
  ⟨true, 100, 1, fun _ => some 10, fun _ => some 5, fun _ => 3, true, true⟩

/-- The model that the builder constructs on pOk. -/
def emOk : sched_energy_model :=
  ⟨1, [⟨50, 3⟩]⟩

/-- The builder platform of the C1 counterexample: scale factor 1024, two
OPPs resolving to frequencies 2 to the 50 and 2 to the 54, max frequency
resolving to 1, every power 1. Every query succeeds and every value is
nonzero, yet 2 to the 54 times 1024 is exactly 2 to the 64 and wraps to a
zero capacity on a 64-bit word. -/
def pC1 : BuildPlatform :=
  ⟨true, 2 ^ 10, 2, fun _ => some 1,
   fun f => some (if f ≤ 2 ^ 50 then 2 ^ 50 else max f (2 ^ 54)),
   fun _ => 1, true, true⟩

/-- The builder platform of the C1 witness: two OPPs at 100 and 200, max
frequency 200, scale factor 1024, power 5 everywhere; nothing overflows. -/
def pW : BuildPlatform :=
  ⟨true, 1024, 2, fun _ => some 200,
   fun f => some (max f (if f ≤ 100 then 100 else 200)),
   fun _ => 5, true, true⟩

/-- Dereference of the model of one cpu through the per-cpu table, as the
query facade does with em = *per_cpu_ptr(energy_model, cpu): follow the
stored heap id into the live model allocations. -/
def deref_model (s : GState) (c : Nat) : Option sched_energy_model :=
  match (s.energy_model.getD []).getD c none with
  | none => none
  | some mid => Option.map Prod.snd (s.em_heap.find? (fun e => e.1 == mid))

/-- Oracle of the C3 witness: one cpu, builder fails on its domain. -/
def o3f : InitOracle :=
  ⟨true, true, fun _ => true, fun _ => some [0], fun _ => none⟩

/-- Oracle of the C4 failing input: one cpu, the freq_domain kzalloc
succeeds, then dev_pm_opp_get_sharing_cpus errs. -/
def oC4 : InitOracle :=
  ⟨true, true, fun _ => true, fun _ => none, fun _ => none⟩

/-- Oracle of the C7 witness: one cpu, one domain, a real model built. -/
def oGood : InitOracle :=
  ⟨true, true, fun _ => true, fun _ => some [0],
   fun _ => some ⟨1, [⟨50, 3⟩]⟩⟩

/-! Lemmas about the query facade scan. -/

/-- The scan loop returns the first qualifying entry and otherwise falls
back to the last entry of a non-empty table. -/
lemma find_cs_go_char (u : Nat) :
    ∀ l : List capacity_state, l ≠ [] →
      find_cs_go u l =
        (l.find? fun c => decide (u ≤ c.cap)).or l.getLast?
  | [], h => absurd rfl h
  | [c], _ => by
    by_cases hc : u ≤ c.cap <;>
      simp [find_cs_go, List.find?_cons, hc]
  | c :: c2 :: cs, _ => by
    by_cases hc : u ≤ c.cap
    · simp [find_cs_go, List.find?_cons, hc]
    · have ih := find_cs_go_char u (c2 :: cs) (by simp)
      simp [find_cs_go, List.find?_cons, hc, ih, List.getLast?_cons_cons]

/-- The scan loop yields an entry on every non-empty table. -/
lemma find_cs_go_isSome (u : Nat) :
    ∀ l : List capacity_state, l ≠ [] → (find_cs_go u l).isSome = true
  | [], h => absurd rfl h
  | [_], _ => rfl
  | c :: c2 :: cs, _ => by
    by_cases hc : u ≤ c.cap
    · simp [find_cs_go, hc]
    · have ih := find_cs_go_isSome u (c2 :: cs) (by simp)
      simp [find_cs_go, hc, ih]

/-- C2: for every model with a non-empty table (published models carry
nr_cap_states equal to the table length), find_cap_state inflates the
utilization by a quarter (in the machine arithmetic of adjust_util) and
returns the first entry in ascending order whose capacity reaches the
adjusted value, falling back to the last and highest-capacity entry; on
the table 100/300/600, utilization 0 gives the 100 entry, 200 gives the
300 entry (adjusted 250) and 500 gives the 600 entry (adjusted 625). -/
theorem C2_lookup_characterization :
    (∀ w em u, em.cap_states ≠ [] →
        em.nr_cap_states = (em.cap_states.length : Int) →
        find_cap_state w em u =
          ((em.cap_states.find? fun c =>
              decide (adjust_util w (u % 2 ^ w) ≤ c.cap)).or
            em.cap_states.getLast?)) ∧
    find_cap_state 64 em3 0 = some ⟨100, 7⟩ ∧
    find_cap_state 64 em3 200 = some ⟨300, 8⟩ ∧
    find_cap_state 64 em3 500 = some ⟨600, 9⟩ := by
  refine ⟨?_, by decide, by decide, by decide⟩
  intro w em u hne hnr
  unfold find_cap_state
  rw [hnr, Int.toNat_ofNat, List.take_length]
  exact find_cs_go_char _ _ hne

/-- Witness run of the C2 characterization at the spec example table. -/
theorem C2_witness :
    find_cap_state 64 em3 0 =
      ((em3.cap_states.find? fun c =>
          decide (adjust_util 64 (0 % 2 ^ 64) ≤ c.cap)).or
        em3.cap_states.getLast?) :=
  C2_lookup_characterization.1 64 em3 0 (by decide) (by decide)

/-- C9: the inflated utilization of find_cap_state is computed modulo the
word, so for every w-bit utilization above (2 ^ w - 1) - (2 ^ w - 1) / 5
the sum u + u / 4 overflows the word and the adjusted value is smaller
than u; concretely, at w = 64 the near-maximal utilization
14757395258967641293 wraps to adjusted 0 and the lookup on the 100/300/600
table returns the lowest-capacity entry instead of the highest. -/
theorem C9_adjust_overflow :
    (∀ w u, u < 2 ^ w → (2 ^ w - 1) - (2 ^ w - 1) / 5 < u →
        2 ^ w ≤ u + u / 4 ∧ adjust_util w u < u) ∧
    find_cap_state 64 em3 14757395258967641293 = some ⟨100, 7⟩ := by
  refine ⟨?_, by decide⟩
  intro w u hu ht
  have hm : 0 < 2 ^ w := Nat.pos_pow_of_pos w (by decide)
  have h1 : 2 ^ w ≤ u + u / 4 := by omega
  refine ⟨h1, ?_⟩
  unfold adjust_util
  rw [Nat.mod_eq_sub_mod h1, Nat.mod_eq_of_lt (by omega)]
  omega

/-- Witness for the C9 wrap bound at word width 4 and utilization 15. -/
theorem C9_witness :
    2 ^ 4 ≤ 15 + 15 / 4 ∧ adjust_util 4 15 < 15 :=
  C9_adjust_overflow.1 4 15 (by decide) (by decide)

/-! Reduction lemmas for the builder loop. -/

lemma build_loop_zero (w cs mf : Nat) (p : BuildPlatform) (f prev : Nat)
    (acc : List capacity_state) (warns : Nat) :
    build_loop w cs mf p 0 f prev acc warns = (some acc.reverse, warns) :=
  rfl

lemma build_loop_ceil_err (w cs mf : Nat) (p : BuildPlatform)
    (k f prev : Nat) (acc : List capacity_state) (warns : Nat)
    (h : p.freq_ceil f = none) :
    build_loop w cs mf p (k + 1) f prev acc warns = (none, warns) := by
  unfold build_loop
  rw [h]

lemma build_loop_bad_point (w cs mf : Nat) (p : BuildPlatform)
    (k f prev : Nat) (acc : List capacity_state) (warns : Nat) (g : Nat)
    (h : p.freq_ceil f = some g) (hz : p.power_of g = 0 ∨ g = 0) :
    build_loop w cs mf p (k + 1) f prev acc warns = (none, warns) := by
  unfold build_loop
  rw [h]
  simp only [if_pos hz]

lemma build_loop_step (w cs mf : Nat) (p : BuildPlatform)
    (k f prev : Nat) (acc : List capacity_state) (warns : Nat) (g : Nat)
    (h : p.freq_ceil f = some g) (hnz : ¬(p.power_of g = 0 ∨ g = 0)) :
    build_loop w cs mf p (k + 1) f prev acc warns =
      build_loop w cs mf p k ((g + 1) % 2 ^ w)
        (g * cs % 2 ^ w / mf * 2 ^ 20 % 2 ^ w / p.power_of g)
        (⟨g * cs % 2 ^ w / mf, p.power_of g⟩ :: acc)
        (if prev ≤ g * cs % 2 ^ w / mf * 2 ^ 20 % 2 ^ w / p.power_of g
          then warns + 1 else warns) := by
  conv_lhs => unfold build_loop
  rw [h]
  simp only [if_neg hnz]

/-- A successful loop run produces one entry per remaining iteration. -/
lemma build_loop_some_length (w cs mf : Nat) (p : BuildPlatform) :
    ∀ k f prev acc warns l wout,
      build_loop w cs mf p k f prev acc warns = (some l, wout) →
      l.length = acc.length + k
  | 0, f, prev, acc, warns, l, wout => by
    intro h
    rw [build_loop_zero] at h
    have : acc.reverse = l := by
      have := congrArg Prod.fst h
      simpa using this
    rw [← this]
    simp
  | k + 1, f, prev, acc, warns, l, wout => by
    intro h
    rcases hc : p.freq_ceil f with _ | g
    · rw [build_loop_ceil_err w cs mf p k f prev acc warns hc] at h
      simp at h
    · by_cases hz : p.power_of g = 0 ∨ g = 0
      · rw [build_loop_bad_point w cs mf p k f prev acc warns g hc hz] at h
        simp at h
      · rw [build_loop_step w cs mf p k f prev acc warns g hc hz] at h
        have ih := build_loop_some_length w cs mf p k ((g + 1) % 2 ^ w)
          (g * cs % 2 ^ w / mf * 2 ^ 20 % 2 ^ w / p.power_of g)
          (⟨g * cs % 2 ^ w / mf, p.power_of g⟩ :: acc)
          (if prev ≤ g * cs % 2 ^ w / mf * 2 ^ 20 % 2 ^ w / p.power_of g
            then warns + 1 else warns) l wout h
      
        simp at ih
        omega

/-- The table and success of the loop never depend on the efficiency
tracking state (prev_opp_eff and the warning counter): those only feed
the pr_warn diagnostic. -/
lemma build_loop_fst_eff_independent (w cs mf : Nat) (p : BuildPlatform) :
    ∀ k f prev1 prev2 acc warns1 warns2,
      (build_loop w cs mf p k f prev1 acc warns1).1 =
        (build_loop w cs mf p k f prev2 acc warns2).1
  | 0, f, prev1, prev2, acc, warns1, warns2 => by
    rw [build_loop_zero, build_loop_zero]
  | k + 1, f, prev1, prev2, acc, warns1, warns2 => by
    rcases hc : p.freq_ceil f with _ | g
    · rw [build_loop_ceil_err w cs mf p k f prev1 acc warns1 hc,
        build_loop_ceil_err w cs mf p k f prev2 acc warns2 hc]
    · by_cases hz : p.power_of g = 0 ∨ g = 0
      · rw [build_loop_bad_point w cs mf p k f prev1 acc warns1 g hc hz,
          build_loop_bad_point w cs mf p k f prev2 acc warns2 g hc hz]
      · rw [build_loop_step w cs mf p k f prev1 acc warns1 g hc hz,
          build_loop_step w cs mf p k f prev2 acc warns2 g hc hz]
        exact build_loop_fst_eff_independent w cs mf p k ((g + 1) % 2 ^ w)
          _ _ _ _ _

/-- C8: the efficiency-ratio comparison only drives the warning counter;
the table component of the loop result is invariant under the efficiency
tracking state (prev_opp_eff, warning count), so an anomaly can neither
change the returned table nor fail the construction. On the concrete
anomalous platform pA the builder succeeds with the full two-entry table
while recording exactly one monotonic-efficiency warning. -/
theorem C8_warning_does_not_change_table :
    (∀ w cs mf p k f prev1 prev2 acc warns1 warns2,
        (build_loop w cs mf p k f prev1 acc warns1).1 =
          (build_loop w cs mf p k f prev2 acc warns2).1) ∧
    (build_energy_model 64 pA).em = some ⟨2, [⟨512, 100⟩, ⟨1024, 100⟩]⟩ ∧
    (build_energy_model 64 pA).warns = 1 :=
  ⟨fun w cs mf p => build_loop_fst_eff_independent w cs mf p,
   by decide, by decide⟩

/-- C5: on every early builder failure (missing device, non-positive OPP
count, erroring floor search, or zero max frequency) nothing is allocated
at all, and on every per-point failure after the table was allocated
(ceiling-search error, zero power or zero frequency: exactly the cases in
which the loop result is constructed-nothing) both the cap_states table
and the em record are allocated once and freed once. -/
theorem C5_builder_no_leak :
    ∀ w p,
      ((p.dev_ok = false ∨ p.opp_count ≤ 0 ∨
          p.freq_floor (2 ^ w - 1) = none ∨
          p.freq_floor (2 ^ w - 1) = some 0) →
        (build_energy_model w p).em = none ∧
        (build_energy_model w p).em_alloc = 0 ∧
        (build_energy_model w p).cs_alloc = 0 ∧
        (build_energy_model w p).em_free = 0 ∧
        (build_energy_model w p).cs_free = 0) ∧
      (p.dev_ok = true → 0 < p.opp_count →
        ∀ mf, p.freq_floor (2 ^ w - 1) = some mf → mf ≠ 0 →
        p.em_alloc_ok = true → p.cs_alloc_ok = true →
        (build_energy_model w p).em = none →
        (build_energy_model w p).em_alloc = 1 ∧
        (build_energy_model w p).em_free = 1 ∧
        (build_energy_model w p).cs_alloc = 1 ∧
        (build_energy_model w p).cs_free = 1) := by
  intro w p
  constructor
  · intro h
    unfold build_energy_model
    by_cases hd : p.dev_ok = false
    · rw [if_pos hd]
      exact ⟨rfl, rfl, rfl, rfl, rfl⟩
    · rw [if_neg hd]
      by_cases hc : p.opp_count ≤ 0
      · rw [if_pos hc]
        exact ⟨rfl, rfl, rfl, rfl, rfl⟩
      · rw [if_neg hc]
        rcases h with h | h | h | h
        · exact absurd h hd
        · exact absurd h hc
        · rw [h]
          exact ⟨rfl, rfl, rfl, rfl, rfl⟩
        · rw [h]
          simp
  · intro hd hc mf hf hmf he hcs hem
    have hd2 : ¬ p.dev_ok = false := by simp [hd]
    have hc2 : ¬ p.opp_count ≤ 0 := by omega
    have he2 : ¬ p.em_alloc_ok = false := by simp [he]
    have hcs2 : ¬ p.cs_alloc_ok = false := by simp [hcs]
    unfold build_energy_model at hem ⊢
    simp only [if_neg hd2, if_neg hc2, hf, if_neg hmf, if_neg he2,
      if_neg hcs2] at hem ⊢
    rcases hb : build_loop w p.cap_scale mf p p.opp_count.toNat 0
        (2 ^ w - 1) [] 0 with ⟨ol, wn⟩
    simp only [hb] at hem ⊢
    rcases ol with _ | cs0
    · exact ⟨rfl, rfl, rfl, rfl⟩
    · simp at hem

/-- Witness runs of C5 on both failure shapes. -/
theorem C5_witness :
    ((build_energy_model 64 pDev).em = none ∧
     (build_energy_model 64 pDev).em_alloc = 0 ∧
     (build_energy_model 64 pDev).cs_alloc = 0 ∧
     (build_energy_model 64 pDev).em_free = 0 ∧
     (build_energy_model 64 pDev).cs_free = 0) ∧
    ((build_energy_model 64 pCF).em_alloc = 1 ∧
     (build_energy_model 64 pCF).em_free = 1 ∧
     (build_energy_model 64 pCF).cs_alloc = 1 ∧
     (build_energy_model 64 pCF).cs_free = 1) :=
  ⟨(C5_builder_no_leak 64 pDev).1 (Or.inl rfl),
   (C5_builder_no_leak 64 pCF).2 rfl (by decide) 10 rfl (by decide) rfl rfl
     (by decide)⟩

/-- C10: every model the builder hands back has a positive entry count,
nr_cap_states equal to the table length, and therefore find_cap_state on
it is never the NULL outcome of an empty scan, for every utilization. -/
theorem C10_success_has_entry :
    ∀ w p m, (build_energy_model w p).em = some m →
      0 < p.opp_count ∧ m.nr_cap_states = p.opp_count ∧
      m.cap_states.length = p.opp_count.toNat ∧
      0 < m.cap_states.length ∧
      ∀ u, (find_cap_state w m u).isSome = true := by
  intro w p m h
  unfold build_energy_model at h
  by_cases hd : p.dev_ok = false
  · rw [if_pos hd] at h
    simp at h
  · rw [if_neg hd] at h
    by_cases hc : p.opp_count ≤ 0
    · rw [if_pos hc] at h
      simp at h
    · rw [if_neg hc] at h
      rcases hf : p.freq_floor (2 ^ w - 1) with _ | mf
      · simp only [hf] at h
        simp at h
      · simp only [hf] at h
        by_cases hmf : mf = 0
        · rw [if_pos hmf] at h
          simp at h
        · rw [if_neg hmf] at h
          by_cases he : p.em_alloc_ok = false
          · rw [if_pos he] at h
            simp at h
          · rw [if_neg he] at h
            by_cases hcs : p.cs_alloc_ok = false
            · rw [if_pos hcs] at h
              simp at h
            · rw [if_neg hcs] at h
              rcases hb : build_loop w p.cap_scale mf p p.opp_count.toNat 0
                  (2 ^ w - 1) [] 0 with ⟨ol, wn⟩
              simp only [hb] at h
              rcases ol with _ | cs0
              · simp at h
              · simp only [Option.some.injEq] at h
                obtain rfl := h.symm
                have hlen : cs0.length = p.opp_count.toNat := by
                  have := build_loop_some_length w p.cap_scale mf p
                    p.opp_count.toNat 0 (2 ^ w - 1) [] 0 cs0 wn hb
                  simpa using this
                have hpos : 0 < cs0.length := by
                  rw [hlen]
                  omega
                refine ⟨by omega, rfl, hlen, hpos, ?_⟩
                intro u
                unfold find_cap_state
                have hne : cs0 ≠ [] := by
                  intro hnil
                  rw [hnil] at hpos
                  simp at hpos
                have htake :
                    (List.take (Int.toNat p.opp_count) cs0) = cs0 := by
                  rw [← hlen, List.take_length]
                simp only []
                rw [htake]
                exact find_cs_go_isSome _ _ hne

/-- Witness run of C10 on the single-OPP platform. -/
theorem C10_witness :
    (find_cap_state 64 emOk 7).isSome = true :=
  (C10_success_has_entry 64 pOk emOk (by decide)).2.2.2.2 7

/-! Lemmas about the ascending OPP walk. -/

lemma ceil_walk_succ (w : Nat) (ceil : Nat → Option Nat) (k f g : Nat)
    (h : ceil f = some g) :
    ceil_walk w ceil (k + 1) f = g :: ceil_walk w ceil k ((g + 1) % 2 ^ w) := by
  conv_lhs => unfold ceil_walk
  simp only [h]

/-- Under a totally succeeding ceiling search with nonzero in-range results
and nonzero powers, the loop builds exactly the mapped walk. -/
lemma build_loop_walk (w : Nat) (p : BuildPlatform) (scale mf : Nat)
    (HC : ∀ f, f < 2 ^ w → ∃ g, p.freq_ceil f = some g ∧ f ≤ g ∧ 0 < g ∧
        g < 2 ^ w ∧ p.power_of g ≠ 0) :
    ∀ k f prev acc warns, f < 2 ^ w →
      (build_loop w scale mf p k f prev acc warns).1 =
        some (acc.reverse ++ (ceil_walk w p.freq_ceil k f).map
          (fun g => ⟨g * scale % 2 ^ w / mf, p.power_of g⟩)) := by
  intro k
  induction k with
  | zero =>
    intro f prev acc warns hf
    simp [build_loop_zero, ceil_walk]
  | succ k ih =>
    intro f prev acc warns hf
    obtain ⟨g, hg, hfg, hg0, hgw, hp⟩ := HC f hf
    have hnz : ¬(p.power_of g = 0 ∨ g = 0) := by
      push_neg
      exact ⟨hp, by omega⟩
    rw [build_loop_step w scale mf p k f prev acc warns g hg hnz]
    rw [ih ((g + 1) % 2 ^ w) _ _ _
      (Nat.mod_lt _ (Nat.pos_pow_of_pos w (by decide)))]
    rw [ceil_walk_succ w p.freq_ceil k f g hg]
    simp

/-- Under the same success hypothesis the walk has full length. -/
lemma ceil_walk_length (w : Nat) (p : BuildPlatform)
    (HC : ∀ f, f < 2 ^ w → ∃ g, p.freq_ceil f = some g ∧ f ≤ g ∧ 0 < g ∧
        g < 2 ^ w ∧ p.power_of g ≠ 0) :
    ∀ k f, f < 2 ^ w → (ceil_walk w p.freq_ceil k f).length = k := by
  intro k
  induction k with
  | zero => intro f hf; rfl
  | succ k ih =>
    intro f hf
    obtain ⟨g, hg, -, -, hgw, -⟩ := HC f hf
    rw [ceil_walk_succ w p.freq_ceil k f g hg]
    simp only [List.length_cons]
    rw [ih ((g + 1) % 2 ^ w)
      (Nat.mod_lt _ (Nat.pos_pow_of_pos w (by decide)))]

/-- Every walked frequency is at least the start frequency, as long as the
walked frequencies do not sit at the top word value (no freq++ wrap). -/
lemma ceil_walk_ge (w : Nat) (p : BuildPlatform)
    (HC : ∀ f, f < 2 ^ w → ∃ g, p.freq_ceil f = some g ∧ f ≤ g ∧ 0 < g ∧
        g < 2 ^ w ∧ p.power_of g ≠ 0) :
    ∀ k f, f < 2 ^ w →
      (∀ x, x ∈ ceil_walk w p.freq_ceil k f → x + 1 < 2 ^ w) →
      ∀ g, g ∈ ceil_walk w p.freq_ceil k f → f ≤ g := by
  intro k
  induction k with
  | zero => intro f hf _ g hm; simp [ceil_walk] at hm
  | succ k ih =>
    intro f hf hw g hm
    obtain ⟨g0, hg0, hfg0, -, hg0w, -⟩ := HC f hf
    rw [ceil_walk_succ w p.freq_ceil k f g0 hg0] at hm hw
    have hg01 : g0 + 1 < 2 ^ w := hw g0 (List.mem_cons_self g0 _)
    rw [Nat.mod_eq_of_lt hg01] at hm hw
    rcases List.mem_cons.mp hm with rfl | hm2
    · exact hfg0
    · have := ih (g0 + 1) hg01
        (fun x hx => hw x (List.mem_cons_of_mem g0 hx)) g hm2
      omega

/-- An in-range getD of a list of frequencies is a member. -/
lemma list_getD_mem : ∀ (l : List Nat) (i : Nat), i < l.length →
    l.getD i 0 ∈ l
  | a :: t, 0, _ => by simp
  | a :: t, i + 1, h => by
    simp only [List.getD_cons_succ]
    exact List.mem_cons_of_mem a (list_getD_mem t i (by simpa using h))

/-- getD commutes with map on an in-range index. -/
lemma list_map_getD (f : Nat → capacity_state) :
    ∀ (l : List Nat) (i : Nat), i < l.length →
      (l.map f).getD i ⟨0, 0⟩ = f (l.getD i 0)
  | a :: t, 0, _ => by simp
  | a :: t, i + 1, h => by
    simp only [List.map_cons, List.getD_cons_succ]
    exact list_map_getD f t i (by simpa using h)

/-- The walked frequencies are non-decreasing in index order (in fact
increasing), given that no walked frequency sits at the top word value. -/
lemma ceil_walk_sorted (w : Nat) (p : BuildPlatform)
    (HC : ∀ f, f < 2 ^ w → ∃ g, p.freq_ceil f = some g ∧ f ≤ g ∧ 0 < g ∧
        g < 2 ^ w ∧ p.power_of g ≠ 0) :
    ∀ k f, f < 2 ^ w →
      (∀ x, x ∈ ceil_walk w p.freq_ceil k f → x + 1 < 2 ^ w) →
      ∀ i j, i ≤ j → j < k →
        (ceil_walk w p.freq_ceil k f).getD i 0 ≤
          (ceil_walk w p.freq_ceil k f).getD j 0 := by
  intro k
  induction k with
  | zero => intro f hf _ i j hij hj; omega
  | succ k ih =>
    intro f hf hw i j hij hj
    obtain ⟨g0, hg0, hfg0, -, hg0w, -⟩ := HC f hf
    rw [ceil_walk_succ w p.freq_ceil k f g0 hg0] at hw ⊢
    have hg01 : g0 + 1 < 2 ^ w := hw g0 (List.mem_cons_self g0 _)
    rw [Nat.mod_eq_of_lt hg01] at hw ⊢
    have hwt : ∀ x, x ∈ ceil_walk w p.freq_ceil k (g0 + 1) →
        x + 1 < 2 ^ w := by
      intro x hx
      exact hw x (List.mem_cons_of_mem g0 hx)
    rcases i with _ | i2
    · rcases j with _ | j2
      · simp
      · simp only [List.getD_cons_zero, List.getD_cons_succ]
        have hj2 : j2 < k := by omega
        have hlen : (ceil_walk w p.freq_ceil k (g0 + 1)).length = k :=
          ceil_walk_length w p HC k (g0 + 1) hg01
        have hmem := list_getD_mem (ceil_walk w p.freq_ceil k (g0 + 1))
          j2 (by omega)
        have hge := ceil_walk_ge w p HC k (g0 + 1) hg01 hwt _ hmem
        omega
    · rcases j with _ | j2
      · omega
      · simp only [List.getD_cons_succ]
        exact ih (g0 + 1) hg01 hwt i2 j2 (by omega) (by omega)

/-- C1 (amended): for every unit whose platform queries all succeed with a
positive OPP count, a nonzero max frequency, succeeding allocations, and a
ceiling search that always resolves to a nonzero in-range frequency at or
above its argument with nonzero power — and provided additionally that no
walked frequency sits at the top word value and no capacity product
frequency times scale factor overflows the word — the builder returns a
table of exactly N entries where entry i holds capacity equal to walked
frequency i times the architecture scale factor divided by the max
frequency (integer division) together with that point power, and the
capacities are non-decreasing in index order because the frequencies are
walked in ascending order. The no-overflow proviso is the amendment: the C
code computes the capacity product in unsigned long arithmetic, and the
counterexample shows the original unconditional claim fails when the
product wraps. -/
theorem C1_builder_table (w : Nat) (p : BuildPlatform) (mf : Nat)
    (hd : p.dev_ok = true) (hc : 0 < p.opp_count)
    (hf : p.freq_floor (2 ^ w - 1) = some mf) (hmf : mf ≠ 0)
    (he : p.em_alloc_ok = true) (hcs : p.cs_alloc_ok = true)
    (HC : ∀ f, f < 2 ^ w → ∃ g, p.freq_ceil f = some g ∧ f ≤ g ∧ 0 < g ∧
        g < 2 ^ w ∧ p.power_of g ≠ 0)
    (HO : ∀ g, g ∈ ceil_walk w p.freq_ceil p.opp_count.toNat 0 →
        g * p.cap_scale < 2 ^ w ∧ g + 1 < 2 ^ w) :
    (build_energy_model w p).em =
      some ⟨p.opp_count,
        (ceil_walk w p.freq_ceil p.opp_count.toNat 0).map
          (fun g => ⟨g * p.cap_scale / mf, p.power_of g⟩)⟩ ∧
    ((ceil_walk w p.freq_ceil p.opp_count.toNat 0).map
        (fun g => (⟨g * p.cap_scale / mf, p.power_of g⟩ : capacity_state))).length
      = p.opp_count.toNat ∧
    (∀ i j, i ≤ j → j < p.opp_count.toNat →
      (((ceil_walk w p.freq_ceil p.opp_count.toNat 0).map
          (fun g => (⟨g * p.cap_scale / mf, p.power_of g⟩ : capacity_state))).getD
            i ⟨0, 0⟩).cap ≤
      (((ceil_walk w p.freq_ceil p.opp_count.toNat 0).map
          (fun g => (⟨g * p.cap_scale / mf, p.power_of g⟩ : capacity_state))).getD
            j ⟨0, 0⟩).cap) := by
  have hw0 : (0 : Nat) < 2 ^ w := Nat.pos_pow_of_pos w (by decide)
  have hd2 : ¬ p.dev_ok = false := by simp [hd]
  have hc2 : ¬ p.opp_count ≤ 0 := by omega
  have he2 : ¬ p.em_alloc_ok = false := by simp [he]
  have hcs2 : ¬ p.cs_alloc_ok = false := by simp [hcs]
  have hwlen : (ceil_walk w p.freq_ceil p.opp_count.toNat 0).length
      = p.opp_count.toNat := ceil_walk_length w p HC _ 0 hw0
  have hmap : (ceil_walk w p.freq_ceil p.opp_count.toNat 0).map
        (fun g => (⟨g * p.cap_scale % 2 ^ w / mf, p.power_of g⟩ : capacity_state))
      = (ceil_walk w p.freq_ceil p.opp_count.toNat 0).map
        (fun g => (⟨g * p.cap_scale / mf, p.power_of g⟩ : capacity_state)) := by
    apply List.map_congr_left
    intro g hg
    rw [Nat.mod_eq_of_lt (HO g hg).1]
  constructor
  · unfold build_energy_model
    simp only [if_neg hd2, if_neg hc2, hf, if_neg hmf, if_neg he2,
      if_neg hcs2]
    have hl := build_loop_walk w p p.cap_scale mf HC p.opp_count.toNat 0
      (2 ^ w - 1) [] 0 hw0
    rcases hb : build_loop w p.cap_scale mf p p.opp_count.toNat 0
        (2 ^ w - 1) [] 0 with ⟨ol, wn⟩
    rw [hb] at hl
    simp only at hl
    simp only [hl, List.reverse_nil, List.nil_append, Option.some.injEq,
      sched_energy_model.mk.injEq, true_and]
    exact hmap
  refine ⟨by rw [List.length_map, hwlen], ?_⟩
  intro i j hij hj
  rw [list_map_getD _ _ i (by omega), list_map_getD _ _ j (by omega)]
  have hsor := ceil_walk_sorted w p HC p.opp_count.toNat 0 hw0
    (fun x hx => (HO x hx).2) i j hij hj
  exact Nat.div_le_div_right (Nat.mul_le_mul_right p.cap_scale hsor)

/-- The pC1 ceiling search meets the full success contract of C1. -/
lemma pC1_ceil_contract :
    ∀ f, f < 2 ^ 64 → ∃ g, pC1.freq_ceil f = some g ∧ f ≤ g ∧ 0 < g ∧
      g < 2 ^ 64 ∧ pC1.power_of g ≠ 0 := by
  intro f hf
  refine ⟨if f ≤ 2 ^ 50 then 2 ^ 50 else max f (2 ^ 54), rfl, ?_, ?_, ?_,
    by simp [pC1]⟩
  · split
    · omega
    · exact Nat.le_max_left _ _
  · split
    · decide
    · have := Nat.le_max_right f (2 ^ 54)
      omega
  · split
    · decide
    · have h1 : (2 : Nat) ^ 54 < 2 ^ 64 := by decide
      exact max_lt hf h1

/-- C1 counterexample: the claim without the overflow proviso is false. On
pC1 every hypothesis of the unconditional claim holds (all queries
succeed, two OPPs, nonzero max frequency, nonzero frequencies and powers),
yet the built table is not the claimed pure-arithmetic table and its
capacities strictly decrease from entry 0 (capacity 2 to the 60) to entry
1 (capacity 0, the wrapped product). -/
theorem C1_counterexample :
    ¬ (∀ (p : BuildPlatform) (mf : Nat),
        p.dev_ok = true → 0 < p.opp_count →
        p.freq_floor (2 ^ 64 - 1) = some mf → mf ≠ 0 →
        p.em_alloc_ok = true → p.cs_alloc_ok = true →
        (∀ f, f < 2 ^ 64 → ∃ g, p.freq_ceil f = some g ∧ f ≤ g ∧ 0 < g ∧
            g < 2 ^ 64 ∧ p.power_of g ≠ 0) →
        (build_energy_model 64 p).em =
          some ⟨p.opp_count,
            (ceil_walk 64 p.freq_ceil p.opp_count.toNat 0).map
              (fun g => ⟨g * p.cap_scale / mf, p.power_of g⟩)⟩ ∧
        (∀ i j, i ≤ j → j < p.opp_count.toNat →
          (((ceil_walk 64 p.freq_ceil p.opp_count.toNat 0).map
              (fun g => (⟨g * p.cap_scale / mf, p.power_of g⟩ :
                capacity_state))).getD i ⟨0, 0⟩).cap ≤
          (((ceil_walk 64 p.freq_ceil p.opp_count.toNat 0).map
              (fun g => (⟨g * p.cap_scale / mf, p.power_of g⟩ :
                capacity_state))).getD j ⟨0, 0⟩).cap)) := by
  intro h
  have := h pC1 1 rfl (by decide) rfl (by decide) rfl rfl pC1_ceil_contract
  exact absurd this.1 (by decide)

/-- The pW ceiling search meets the success contract of C1. -/
lemma pW_ceil_contract :
    ∀ f, f < 2 ^ 64 → ∃ g, pW.freq_ceil f = some g ∧ f ≤ g ∧ 0 < g ∧
      g < 2 ^ 64 ∧ pW.power_of g ≠ 0 := by
  intro f hf
  refine ⟨max f (if f ≤ 100 then 100 else 200), rfl, Nat.le_max_left _ _,
    ?_, ?_, by simp [pW]⟩
  · have : (0 : Nat) < if f ≤ 100 then 100 else 200 := by
      split <;> decide
    have := Nat.le_max_right f (if f ≤ 100 then 100 else 200)
    omega
  · have : (if f ≤ 100 then (100 : Nat) else 200) < 2 ^ 64 := by
      split <;> decide
    exact max_lt hf this

/-- Witness run of the amended C1 on pW: the full two-entry table is built
and the capacities do not decrease between its two entries. -/
theorem C1_witness :
    (build_energy_model 64 pW).em =
      some ⟨pW.opp_count,
        (ceil_walk 64 pW.freq_ceil pW.opp_count.toNat 0).map
          (fun g => ⟨g * pW.cap_scale / 200, pW.power_of g⟩)⟩ ∧
    (((ceil_walk 64 pW.freq_ceil pW.opp_count.toNat 0).map
        (fun g => (⟨g * pW.cap_scale / 200, pW.power_of g⟩ :
          capacity_state))).getD 0 ⟨0, 0⟩).cap ≤
    (((ceil_walk 64 pW.freq_ceil pW.opp_count.toNat 0).map
        (fun g => (⟨g * pW.cap_scale / 200, pW.power_of g⟩ :
          capacity_state))).getD 1 ⟨0, 0⟩).cap := by
  have h := C1_builder_table 64 pW 200 rfl (by decide) rfl (by decide)
    rfl rfl pW_ceil_contract (by decide)
  exact ⟨h.1, h.2.2 0 1 (by decide) (by decide)⟩

/-! Helper lemmas about the per-cpu table and cpu masks. -/

lemma getD_replicate_none :
    ∀ (n c : Nat), (List.replicate n (none : Option Nat)).getD c none = none
  | 0, _ => by simp
  | n + 1, 0 => by simp [List.replicate]
  | n + 1, c + 1 => by
    simp only [List.replicate, List.getD_cons_succ]
    exact getD_replicate_none n c

lemma getD_set_self (tbl : List (Option Nat)) (i : Nat) (v : Option Nat)
    (h : i < tbl.length) : (tbl.set i v).getD i none = v := by
  rw [List.getD_eq_getElem?_getD, List.getElem?_set_self h]
  rfl

lemma getD_set_other (tbl : List (Option Nat)) (i j : Nat) (v : Option Nat)
    (h : i ≠ j) : (tbl.set i v).getD j none = tbl.getD j none := by
  rw [List.getD_eq_getElem?_getD, List.getElem?_set_ne h,
    ← List.getD_eq_getElem?_getD]

lemma assign_span_cons (tbl : List (Option Nat)) (c : Nat) (sp : List Nat)
    (mid : Nat) :
    assign_span tbl (c :: sp) mid =
      assign_span (tbl.set c (some mid)) sp mid :=
  rfl

lemma assign_span_length :
    ∀ (sp : List Nat) (tbl : List (Option Nat)) (mid : Nat),
      (assign_span tbl sp mid).length = tbl.length
  | [], _, _ => rfl
  | c :: sp, tbl, mid => by
    rw [assign_span_cons, assign_span_length sp _ mid, List.length_set]

lemma assign_span_getD_not_mem :
    ∀ (sp : List Nat) (tbl : List (Option Nat)) (mid c : Nat), c ∉ sp →
      (assign_span tbl sp mid).getD c none = tbl.getD c none
  | [], _, _, _, _ => rfl
  | a :: sp, tbl, mid, c, h => by
    rw [assign_span_cons]
    have h1 : c ∉ sp := fun hm => h (List.mem_cons_of_mem a hm)
    have h2 : a ≠ c := fun he => h (he ▸ List.mem_cons_self a sp)
    rw [assign_span_getD_not_mem sp _ mid c h1,
      getD_set_other tbl a c _ h2]

lemma assign_span_getD_mem :
    ∀ (sp : List Nat) (tbl : List (Option Nat)) (mid c : Nat), c ∈ sp →
      c < tbl.length → (assign_span tbl sp mid).getD c none = some mid
  | [], _, _, c, h, _ => absurd h (List.not_mem_nil c)
  | a :: sp, tbl, mid, c, h, hlt => by
    rw [assign_span_cons]
    by_cases hm : c ∈ sp
    · exact assign_span_getD_mem sp _ mid c hm
        (by rw [List.length_set]; exact hlt)
    · have hac : c = a := by
        rcases List.mem_cons.mp h with h1 | h1
        · exact h1
        · exact absurd h1 hm
      subst hac
      rw [assign_span_getD_not_mem sp _ mid c hm]
      exact getD_set_self tbl c _ hlt

lemma cpumask_first_cons (n a : Nat) (sp : List Nat) :
    cpumask_first n (a :: sp) = min a (cpumask_first n sp) :=
  rfl

lemma cpumask_first_le (n : Nat) :
    ∀ (sp : List Nat) (c : Nat), c ∈ sp → cpumask_first n sp ≤ c
  | [], c, h => absurd h (List.not_mem_nil c)
  | a :: sp, c, h => by
    rw [cpumask_first_cons]
    rcases List.mem_cons.mp h with rfl | h2
    · exact Nat.min_le_left _ _
    · exact le_trans (Nat.min_le_right _ _) (cpumask_first_le n sp c h2)

lemma cpumask_first_mem (n : Nat) :
    ∀ (sp : List Nat), sp ≠ [] → (∀ c, c ∈ sp → c < n) →
      cpumask_first n sp ∈ sp
  | [], h, _ => absurd rfl h
  | [a], _, hlt => by
    have h1 : cpumask_first n [a] = min a n := rfl
    rw [h1, Nat.min_eq_left (le_of_lt (hlt a (by simp)))]
    simp
  | a :: b :: sp, _, hlt => by
    rw [cpumask_first_cons]
    have ih := cpumask_first_mem n (b :: sp) (by simp)
      (fun c hc => hlt c (List.mem_cons_of_mem a hc))
    rcases Nat.le_total a (cpumask_first n (b :: sp)) with h | h
    · rw [Nat.min_eq_left h]
      simp
    · rw [Nat.min_eq_right h]
      exact List.mem_cons_of_mem a ih

/-! Lemmas about the per-domain well-formedness predicate. -/

lemma DomsOK_mem (o : InitOracle) (n : Nat) (tbl : List (Option Nat)) :
    ∀ (fds : List freq_domain) (ms : List (Nat × sched_energy_model)),
      DomsOK o n tbl fds ms → ∀ fd, fd ∈ fds →
        fd.span ≠ [] ∧ (∀ c, c ∈ fd.span → c < n) ∧
        (∃ c0, c0 < n ∧ o.sharing c0 = some fd.span) ∧
        ∃ mid em, (∀ c, c ∈ fd.span → tbl.getD c none = some mid) ∧
          o.build (cpumask_first n fd.span) = some em ∧ (mid, em) ∈ ms
  | [], [], _, fd, hm => absurd hm (List.not_mem_nil fd)
  | [], _ :: _, h, _, _ => absurd h (by simp [DomsOK])
  | _ :: _, [], h, _, _ => absurd h (by simp [DomsOK])
  | fd2 :: fds, m :: ms, h, fd, hm => by
    simp only [DomsOK] at h
    obtain ⟨h1, h2, h3, h4, h5, h6, h7⟩ := h
    rcases List.mem_cons.mp hm with rfl | hm2
    · exact ⟨h1, h2, h3, m.1, m.2, h4, h5, List.mem_cons_self _ _⟩
    · obtain ⟨g1, g2, g3, mid, em, g4, g5, g6⟩ :=
        DomsOK_mem o n tbl fds ms h7 fd hm2
      exact ⟨g1, g2, g3, mid, em, g4, g5, List.mem_cons_of_mem m g6⟩

lemma DomsOK_nodup (o : InitOracle) (n : Nat) (tbl : List (Option Nat)) :
    ∀ (fds : List freq_domain) (ms : List (Nat × sched_energy_model)),
      DomsOK o n tbl fds ms → (ms.map Prod.fst).Nodup
  | [], [], _ => by simp
  | [], _ :: _, h => absurd h (by simp [DomsOK])
  | _ :: _, [], h => absurd h (by simp [DomsOK])
  | fd :: fds, m :: ms, h => by
    simp only [DomsOK] at h
    obtain ⟨-, -, -, -, -, h6, h7⟩ := h
    simp only [List.map_cons, List.nodup_cons]
    refine ⟨?_, DomsOK_nodup o n tbl fds ms h7⟩
    intro hmem
    obtain ⟨e, he, heq⟩ := List.mem_map.mp hmem
    exact (h6 e he) heq

lemma DomsOK_congr (o : InitOracle) (n : Nat) :
    ∀ (fds : List freq_domain) (ms : List (Nat × sched_energy_model))
      (tbl tbl2 : List (Option Nat)),
      DomsOK o n tbl fds ms →
      (∀ fd, fd ∈ fds → ∀ c, c ∈ fd.span →
        tbl2.getD c none = tbl.getD c none) →
      DomsOK o n tbl2 fds ms
  | [], [], _, _, _, _ => by simp [DomsOK]
  | [], _ :: _, _, _, h, _ => absurd h (by simp [DomsOK])
  | _ :: _, [], _, _, h, _ => absurd h (by simp [DomsOK])
  | fd :: fds, m :: ms, tbl, tbl2, h, hco => by
    simp only [DomsOK] at h ⊢
    obtain ⟨h1, h2, h3, h4, h5, h6, h7⟩ := h
    refine ⟨h1, h2, h3, ?_, h5, h6, ?_⟩
    · intro c hc
      rw [hco fd (List.mem_cons_self _ _) c hc]
      exact h4 c hc
    · exact DomsOK_congr o n fds ms tbl tbl2 h7
        (fun fd2 hm c hc => hco fd2 (List.mem_cons_of_mem fd hm) c hc)

/-! Lemmas about the rollback walk. -/

lemma free_fdoms_nil (n : Nat) (tbl : List (Option Nat)) (s : GState) :
    free_fdoms n tbl [] s = s :=
  rfl

lemma free_fdoms_cons_some (n : Nat) (tbl : List (Option Nat))
    (fd : freq_domain) (rest : List freq_domain) (s : GState) (mid : Nat)
    (h : tbl.getD (cpumask_first n fd.span) none = some mid) :
    free_fdoms n tbl (fd :: rest) s =
      free_fdoms n tbl rest
        { s with
          em_heap := s.em_heap.filter (fun e => e.1 != mid),
          freed_ems := s.freed_ems ++ [mid],
          live_fdoms := s.live_fdoms.erase fd.fid,
          freed_fdoms := s.freed_fdoms ++ [fd.fid] } := by
  conv_lhs => unfold free_fdoms
  rw [h]

lemma free_fdoms_cons_none (n : Nat) (tbl : List (Option Nat))
    (fd : freq_domain) (rest : List freq_domain) (s : GState)
    (h : tbl.getD (cpumask_first n fd.span) none = none) :
    free_fdoms n tbl (fd :: rest) s =
      free_fdoms n tbl rest
        { s with
          live_fdoms := s.live_fdoms.erase fd.fid,
          freed_fdoms := s.freed_fdoms ++ [fd.fid] } := by
  conv_lhs => unfold free_fdoms
  rw [h]

/-- Walking the rollback over domains aligned with their live models frees
every model exactly once (the freed ids are exactly the live ids, in
order) and leaves the heap empty, without touching the flag or the table. -/
lemma free_fdoms_spec (o : InitOracle) (n : Nat) :
    ∀ (fds : List freq_domain) (ms : List (Nat × sched_energy_model))
      (tbl : List (Option Nat)) (s : GState),
      DomsOK o n tbl fds ms → s.em_heap = ms →
      (free_fdoms n tbl fds s).em_heap = [] ∧
      (free_fdoms n tbl fds s).freed_ems = s.freed_ems ++ ms.map Prod.fst ∧
      (free_fdoms n tbl fds s).sched_energy_present =
        s.sched_energy_present ∧
      (free_fdoms n tbl fds s).energy_model = s.energy_model
  | [], [], tbl, s, _, hh => by
    rw [free_fdoms_nil]
    exact ⟨hh, by simp, rfl, rfl⟩
  | [], _ :: _, _, _, h, _ => absurd h (by simp [DomsOK])
  | _ :: _, [], _, _, h, _ => absurd h (by simp [DomsOK])
  | fd :: fds, m :: ms, tbl, s, h, hh => by
    simp only [DomsOK] at h
    obtain ⟨h1, h2, h3, h4, h5, h6, h7⟩ := h
    have hfirst : tbl.getD (cpumask_first n fd.span) none = some m.1 :=
      h4 _ (cpumask_first_mem n fd.span h1 h2)
    rw [free_fdoms_cons_some n tbl fd fds s m.1 hfirst]
    have hkeep : ∀ e, e ∈ ms → (e.1 != m.1) = true := by
      intro e he
      simpa using h6 e he
    have hheap :
        (s.em_heap.filter (fun e => e.1 != m.1)) = ms := by
      rw [hh, List.filter_cons]
      simp only [bne_self_eq_false, Bool.false_eq_true, if_false]
      exact List.filter_eq_self.mpr hkeep
    have ih := free_fdoms_spec o n fds ms tbl
      { s with
        em_heap := s.em_heap.filter (fun e => e.1 != m.1),
        freed_ems := s.freed_ems ++ [m.1],
        live_fdoms := s.live_fdoms.erase fd.fid,
        freed_fdoms := s.freed_fdoms ++ [fd.fid] } h7 hheap
    refine ⟨ih.1, ?_, ih.2.2.1, ih.2.2.2⟩
    rw [ih.2.1]
    show s.freed_ems ++ [m.1] ++ List.map Prod.fst ms =
      s.freed_ems ++ List.map Prod.fst (m :: ms)
    simp

/-- Full rollback from a state satisfying the pass invariant pieces: the
global state is emptied and no model is freed twice. -/
lemma free_energy_model_rolled (o : InitOracle) (n : Nat) (s : GState)
    (tbl : List (Option Nat)) (h1 : s.energy_model = some tbl)
    (h2 : DomsOK o n tbl s.sched_freq_domains s.em_heap)
    (h3 : s.freed_ems = []) (h4 : s.sched_energy_present = false) :
    Rolled (free_energy_model n s) := by
  have hgd : s.energy_model.getD [] = tbl := by
    rw [h1]
    rfl
  have hspec := free_fdoms_spec o n s.sched_freq_domains s.em_heap tbl s
    h2 rfl
  unfold free_energy_model
  rw [hgd]
  refine ⟨rfl, rfl, hspec.1, ?_, ?_⟩
  · show (free_fdoms n tbl s.sched_freq_domains s).sched_energy_present
      = false
    rw [hspec.2.2.1, h4]
  · show (free_fdoms n tbl s.sched_freq_domains s).freed_ems.Nodup
    rw [hspec.2.1, h3]
    simp only [List.nil_append]
    exact DomsOK_nodup o n tbl _ _ h2

/-- Full rollback when the head domain of the list has no model assigned
(its build failed right after the list_add): its table lookup is NULL, so
the walk frees only the record and the remaining domains roll back as
usual. -/
lemma free_energy_model_rolled_head (o : InitOracle) (n : Nat) (s : GState)
    (tbl : List (Option Nat)) (fd : freq_domain)
    (rest : List freq_domain) (h1 : s.energy_model = some tbl)
    (hd : s.sched_freq_domains = fd :: rest)
    (hnone : tbl.getD (cpumask_first n fd.span) none = none)
    (h2 : DomsOK o n tbl rest s.em_heap)
    (h3 : s.freed_ems = []) (h4 : s.sched_energy_present = false) :
    Rolled (free_energy_model n s) := by
  have hgd : s.energy_model.getD [] = tbl := by
    rw [h1]
    rfl
  unfold free_energy_model
  rw [hgd, hd]
  rw [free_fdoms_cons_none n tbl fd rest s hnone]
  have hspec := free_fdoms_spec o n rest s.em_heap tbl
    { s with
      live_fdoms := s.live_fdoms.erase fd.fid,
      freed_fdoms := s.freed_fdoms ++ [fd.fid] } h2 rfl
  refine ⟨rfl, rfl, hspec.1, ?_, ?_⟩
  · show (free_fdoms n tbl rest _).sched_energy_present = false
    rw [hspec.2.2.1]
    exact h4
  · show (free_fdoms n tbl rest _).freed_ems.Nodup
    rw [hspec.2.1]
    show (s.freed_ems ++ _).Nodup
    rw [h3]
    simp only [List.nil_append]
    exact DomsOK_nodup o n tbl _ _ h2

/-! Reduction lemmas for one publisher loop iteration. -/

lemma init_one_skip (n : Nat) (o : InitOracle) (cpu : Nat) (s : GState)
    (h : ((s.energy_model.getD []).getD cpu none).isSome = true) :
    init_one n o cpu s = (s, true) := by
  unfold init_one
  rw [if_pos h]

lemma init_one_nofdom (n : Nat) (o : InitOracle) (cpu : Nat) (s : GState)
    (h : ((s.energy_model.getD []).getD cpu none).isSome = false)
    (h2 : o.fdom_ok cpu = false) :
    init_one n o cpu s = (free_energy_model n s, false) := by
  unfold init_one
  rw [if_neg (by simp only [h]; decide), if_pos h2]

lemma init_one_noshare (n : Nat) (o : InitOracle) (cpu : Nat) (s : GState)
    (h : ((s.energy_model.getD []).getD cpu none).isSome = false)
    (h2 : o.fdom_ok cpu = true) (h3 : o.sharing cpu = none) :
    init_one n o cpu s =
      (free_energy_model n
        { s with
          next_id := s.next_id + 1,
          live_fdoms := s.next_id :: s.live_fdoms }, false) := by
  unfold init_one
  rw [if_neg (by simp only [h]; decide), if_neg (by simp only [h2]; decide)]
  simp only [h3]

lemma init_one_nobuild (n : Nat) (o : InitOracle) (cpu : Nat) (s : GState)
    (sp : List Nat)
    (h : ((s.energy_model.getD []).getD cpu none).isSome = false)
    (h2 : o.fdom_ok cpu = true) (h3 : o.sharing cpu = some sp)
    (h4 : o.build (cpumask_first n sp) = none) :
    init_one n o cpu s =
      (free_energy_model n
        { s with
          next_id := s.next_id + 1,
          live_fdoms := s.next_id :: s.live_fdoms,
          sched_freq_domains :=
            ⟨s.next_id, sp⟩ :: s.sched_freq_domains }, false) := by
  unfold init_one
  rw [if_neg (by simp only [h]; decide), if_neg (by simp only [h2]; decide)]
  simp only [h3, h4]

lemma init_one_build (n : Nat) (o : InitOracle) (cpu : Nat) (s : GState)
    (sp : List Nat) (em : sched_energy_model)
    (h : ((s.energy_model.getD []).getD cpu none).isSome = false)
    (h2 : o.fdom_ok cpu = true) (h3 : o.sharing cpu = some sp)
    (h4 : o.build (cpumask_first n sp) = some em) :
    init_one n o cpu s =
      ({ s with
          next_id := s.next_id + 1 + 1,
          live_fdoms := s.next_id :: s.live_fdoms,
          sched_freq_domains := ⟨s.next_id, sp⟩ :: s.sched_freq_domains,
          em_heap := (s.next_id + 1, em) :: s.em_heap,
          energy_model := some (assign_span (s.energy_model.getD []) sp
            (s.next_id + 1)) }, true) := by
  unfold init_one
  rw [if_neg (by simp only [h]; decide), if_neg (by simp only [h2]; decide)]
  simp only [h3, h4]

/-- Under the partition contract, the span a not-yet-assigned cpu reports
is entirely unassigned in the table: domains only cover whole spans, so a
slot set inside this span would force the whole span, including this cpu,
to be covered already. -/
lemma span_unassigned (o : InitOracle) (n : Nat) (HS : SharingOK o n)
    (tbl : List (Option Nat)) (doms : List freq_domain)
    (ms : List (Nat × sched_energy_model))
    (hdm : DomsOK o n tbl doms ms)
    (hcov : ∀ c, c < n → (tbl.getD c none).isSome = true →
      ∃ fd, fd ∈ doms ∧ c ∈ fd.span)
    (cpu : Nat) (hc : cpu < n)
    (hskip : (tbl.getD cpu none).isSome = false)
    (sp : List Nat) (hsh : o.sharing cpu = some sp) :
    ∀ c, c ∈ sp → tbl.getD c none = none := by
  intro c hcm
  obtain ⟨hcpu_sp, hsp_lt, hsp_sh⟩ := HS cpu hc sp hsh
  rcases hx : tbl.getD c none with _ | v
  · rfl
  exfalso
  have hsome : (tbl.getD c none).isSome = true := by
    rw [hx]
    rfl
  obtain ⟨fd, hfd, hcfd⟩ := hcov c (hsp_lt c hcm) hsome
  obtain ⟨-, -, ⟨c0, hc0, hc0sh⟩, mid, em, hass, -, -⟩ :=
    DomsOK_mem o n tbl doms ms hdm fd hfd
  obtain ⟨-, -, hsp_sh0⟩ := HS c0 hc0 fd.span hc0sh
  have h1 : o.sharing c = some fd.span := hsp_sh0 c hcfd
  have h2 : o.sharing c = some sp := hsp_sh c hcm
  rw [h1] at h2
  have hspeq : fd.span = sp := Option.some.inj h2
  have hcpu_fd : cpu ∈ fd.span := by
    rw [hspeq]
    exact hcpu_sp
  have h3 := hass cpu hcpu_fd
  rw [h3] at hskip
  simp at hskip

/-- One publisher iteration from an invariant state: on success the
invariant still holds, the iterated cpu is mapped and no mapping is lost;
on failure the state is fully rolled back. -/
lemma init_one_spec (o : InitOracle) (n : Nat) (HS : SharingOK o n)
    (cpu : Nat) (hc : cpu < n) (s : GState) (hInv : PassInv o n s) :
    ((init_one n o cpu s).2 = true →
        PassInv o n (init_one n o cpu s).1 ∧
        isAssigned (init_one n o cpu s).1 cpu ∧
        (∀ c, isAssigned s c → isAssigned (init_one n o cpu s).1 c)) ∧
    ((init_one n o cpu s).2 = false → Rolled (init_one n o cpu s).1) := by
  obtain ⟨tbl, htbl, hlen, hdm, hcov, hfr, hpres, hfresh⟩ := hInv
  have hgd : s.energy_model.getD [] = tbl := by
    rw [htbl]
    rfl
  by_cases hskip : (tbl.getD cpu none).isSome = true
  · rw [init_one_skip n o cpu s (by rw [hgd]; exact hskip)]
    constructor
    · intro _
      refine ⟨⟨tbl, htbl, hlen, hdm, hcov, hfr, hpres, hfresh⟩, ?_,
        fun c hc2 => hc2⟩
      show ((s.energy_model.getD []).getD cpu none).isSome = true
      rw [hgd]
      exact hskip
    · intro hfalse
      simp at hfalse
  · have hskip2 : (tbl.getD cpu none).isSome = false := by
      simpa using hskip
    have hga : ((s.energy_model.getD []).getD cpu none).isSome = false := by
      rw [hgd]
      exact hskip2
    by_cases hfd : o.fdom_ok cpu = false
    · rw [init_one_nofdom n o cpu s hga hfd]
      constructor
      · intro hx
        simp at hx
      · intro _
        exact free_energy_model_rolled o n s tbl htbl hdm hfr hpres
    · have hfd2 : o.fdom_ok cpu = true := by
        rcases hb : o.fdom_ok cpu
        · exact absurd hb hfd
        · rfl
      rcases hsh : o.sharing cpu with _ | sp
      · rw [init_one_noshare n o cpu s hga hfd2 hsh]
        constructor
        · intro hx
          simp at hx
        · intro _
          exact free_energy_model_rolled o n
            { s with
              next_id := s.next_id + 1,
              live_fdoms := s.next_id :: s.live_fdoms }
            tbl htbl hdm hfr hpres
      · obtain ⟨hcpu_sp, hsp_lt, hsp_sh⟩ := HS cpu hc sp hsh
        have hun := span_unassigned o n HS tbl s.sched_freq_domains
          s.em_heap hdm hcov cpu hc hskip2 sp hsh
        rcases hbd : o.build (cpumask_first n sp) with _ | em
        · rw [init_one_nobuild n o cpu s sp hga hfd2 hsh hbd]
          constructor
          · intro hx
            simp at hx
          · intro _
            refine free_energy_model_rolled_head o n
              { s with
                next_id := s.next_id + 1,
                live_fdoms := s.next_id :: s.live_fdoms,
                sched_freq_domains :=
                  ⟨s.next_id, sp⟩ :: s.sched_freq_domains }
              tbl ⟨s.next_id, sp⟩ s.sched_freq_domains htbl rfl ?_ hdm
              hfr hpres
            exact hun _ (cpumask_first_mem n sp
              (List.ne_nil_of_mem hcpu_sp) hsp_lt)
        · rw [init_one_build n o cpu s sp em hga hfd2 hsh hbd]
          constructor
          · intro _
            have hdisj : ∀ fd, fd ∈ s.sched_freq_domains → ∀ c,
                c ∈ fd.span → c ∉ sp := by
              intro fd hfd3 c hcfd hcsp
              obtain ⟨-, -, -, mid2, em2, hass, -, -⟩ :=
                DomsOK_mem o n tbl _ _ hdm fd hfd3
              have h1 := hass c hcfd
              have h2 := hun c hcsp
              rw [h1] at h2
              simp at h2
            have hdm2 : DomsOK o n (assign_span tbl sp (s.next_id + 1))
                (⟨s.next_id, sp⟩ :: s.sched_freq_domains)
                ((s.next_id + 1, em) :: s.em_heap) := by
              simp only [DomsOK]
              refine ⟨List.ne_nil_of_mem hcpu_sp, hsp_lt, ⟨cpu, hc, hsh⟩,
                ?_, hbd, ?_, ?_⟩
              · intro c hcm
                exact assign_span_getD_mem sp tbl (s.next_id + 1) c hcm
                  (by rw [hlen]; exact hsp_lt c hcm)
              · intro e he
                have := hfresh e he
                omega
              · exact DomsOK_congr o n _ _ tbl _ hdm
                  (fun fd hfd3 c hcfd =>
                    assign_span_getD_not_mem sp tbl _ c
                      (hdisj fd hfd3 c hcfd))
            have hcov2 : ∀ c, c < n →
                ((assign_span tbl sp (s.next_id + 1)).getD c none).isSome
                  = true →
                ∃ fd, fd ∈ (⟨s.next_id, sp⟩ :: s.sched_freq_domains :
                    List freq_domain) ∧ c ∈ fd.span := by
              intro c hcn hsome
              by_cases hm : c ∈ sp
              · exact ⟨⟨s.next_id, sp⟩, List.mem_cons_self _ _, hm⟩
              · rw [assign_span_getD_not_mem sp tbl _ c hm] at hsome
                obtain ⟨fd, hx1, hx2⟩ := hcov c hcn hsome
                exact ⟨fd, List.mem_cons_of_mem _ hx1, hx2⟩
            refine ⟨⟨assign_span tbl sp (s.next_id + 1), ?_, ?_, hdm2,
              hcov2, hfr, hpres, ?_⟩, ?_, ?_⟩
            · show some (assign_span (s.energy_model.getD []) sp
                (s.next_id + 1)) = some (assign_span tbl sp (s.next_id + 1))
              rw [hgd]
            · rw [assign_span_length]
              exact hlen
            · intro e he
              rcases List.mem_cons.mp he with rfl | he2
              · show s.next_id + 1 < s.next_id + 1 + 1
                omega
              · have := hfresh e he2
                show e.1 < s.next_id + 1 + 1
                omega
            · show ((assign_span (s.energy_model.getD []) sp
                  (s.next_id + 1)).getD cpu none).isSome = true
              rw [hgd, assign_span_getD_mem sp tbl _ cpu hcpu_sp
                (by rw [hlen]; exact hc)]
              rfl
            · intro c hass
              show ((assign_span (s.energy_model.getD []) sp
                  (s.next_id + 1)).getD c none).isSome = true
              rw [hgd]
              by_cases hm : c ∈ sp
              · rw [assign_span_getD_mem sp tbl _ c hm
                  (by rw [hlen]; exact hsp_lt c hm)]
                rfl
              · rw [assign_span_getD_not_mem sp tbl _ c hm]
                show (tbl.getD c none).isSome = true
                have hass2 : ((s.energy_model.getD []).getD c none).isSome
                    = true := hass
                rw [hgd] at hass2
                exact hass2
          · intro hx
            simp at hx

lemma init_cpus_nil (n : Nat) (o : InitOracle) (s : GState) :
    init_cpus n o [] s = (s, true) :=
  rfl

lemma init_cpus_cons_ok (n : Nat) (o : InitOracle) (cpu : Nat)
    (rest : List Nat) (s : GState) (h : (init_one n o cpu s).2 = true) :
    init_cpus n o (cpu :: rest) s =
      init_cpus n o rest (init_one n o cpu s).1 := by
  conv_lhs => unfold init_cpus
  rw [if_pos h]

lemma init_cpus_cons_fail (n : Nat) (o : InitOracle) (cpu : Nat)
    (rest : List Nat) (s : GState) (h : (init_one n o cpu s).2 = false) :
    init_cpus n o (cpu :: rest) s = init_one n o cpu s := by
  conv_lhs => unfold init_cpus
  rw [if_neg (by simp only [h]; decide)]

/-- The publisher loop from an invariant state: on success the invariant
holds at the end, every listed cpu is mapped and no mapping is lost; on
failure the final state is fully rolled back. -/
lemma init_cpus_spec (o : InitOracle) (n : Nat) (HS : SharingOK o n) :
    ∀ (cpus : List Nat) (s : GState), (∀ c, c ∈ cpus → c < n) →
      PassInv o n s →
      ((init_cpus n o cpus s).2 = true →
          PassInv o n (init_cpus n o cpus s).1 ∧
          (∀ c, c ∈ cpus → isAssigned (init_cpus n o cpus s).1 c) ∧
          (∀ c, isAssigned s c → isAssigned (init_cpus n o cpus s).1 c)) ∧
      ((init_cpus n o cpus s).2 = false →
          Rolled (init_cpus n o cpus s).1)
  | [], s, _, hInv => by
    rw [init_cpus_nil]
    constructor
    · intro _
      exact ⟨hInv, fun c hc => absurd hc (List.not_mem_nil c),
        fun c h => h⟩
    · intro hx
      simp at hx
  | cpu :: rest, s, hlt, hInv => by
    have hone := init_one_spec o n HS cpu
      (hlt cpu (List.mem_cons_self _ _)) s hInv
    rcases hok : (init_one n o cpu s).2
    · rw [init_cpus_cons_fail n o cpu rest s hok]
      constructor
      · intro hx
        rw [hok] at hx
        simp at hx
      · intro _
        exact hone.2 hok
    · rw [init_cpus_cons_ok n o cpu rest s hok]
      obtain ⟨hInv2, hass, hpres⟩ := hone.1 hok
      have ih := init_cpus_spec o n HS rest (init_one n o cpu s).1
        (fun c hc2 => hlt c (List.mem_cons_of_mem _ hc2)) hInv2
      constructor
      · intro hok2
        obtain ⟨ih1, ih2, ih3⟩ := ih.1 hok2
        refine ⟨ih1, ?_, fun c h => ih3 c (hpres c h)⟩
        intro c hc2
        rcases List.mem_cons.mp hc2 with rfl | hc3
        · exact ih3 c hass
        · exact ih2 c hc3
      · intro hf
        exact ih.2 hf

lemma init_sched_energy_noasym (n : Nat) (o : InitOracle) (s : GState)
    (h : o.sd_asym = false) :
    init_sched_energy n o s = s := by
  unfold init_sched_energy
  rw [if_pos h]

lemma init_sched_energy_nopercpu (n : Nat) (o : InitOracle) (s : GState)
    (h : o.sd_asym = true) (h2 : o.percpu_ok = false) :
    init_sched_energy n o s = s := by
  unfold init_sched_energy
  rw [if_neg (by simp only [h]; decide), if_pos h2]

lemma init_sched_energy_run_ok (n : Nat) (o : InitOracle)
    (h : o.sd_asym = true) (h2 : o.percpu_ok = true)
    (h3 : (init_cpus n o (List.range n) (init_tbl0 n)).2 = true) :
    init_sched_energy n o init0 =
      { (init_cpus n o (List.range n) (init_tbl0 n)).1 with
        sched_energy_present := true } := by
  unfold init_sched_energy
  rw [if_neg (by simp only [h]; decide), if_neg (by simp only [h2]; decide)]
  have he : ({ init0 with energy_model := some (List.replicate n none) } :
      GState) = init_tbl0 n := rfl
  rw [he, if_pos h3]

lemma init_sched_energy_run_fail (n : Nat) (o : InitOracle)
    (h : o.sd_asym = true) (h2 : o.percpu_ok = true)
    (h3 : (init_cpus n o (List.range n) (init_tbl0 n)).2 = false) :
    init_sched_energy n o init0 =
      (init_cpus n o (List.range n) (init_tbl0 n)).1 := by
  unfold init_sched_energy
  rw [if_neg (by simp only [h]; decide), if_neg (by simp only [h2]; decide)]
  have he : ({ init0 with energy_model := some (List.replicate n none) } :
      GState) = init_tbl0 n := rfl
  rw [he, if_neg (by simp only [h3]; decide)]

/-- The publisher from the pristine state: a pass that ends with the flag
set leaves a full well-formed mapping; a pass that ends with the flag off
(skipped or failed) leaves the global state empty with no model freed
twice. -/
lemma init_sched_energy_spec (o : InitOracle) (n : Nat)
    (HS : SharingOK o n) :
    ((init_sched_energy n o init0).sched_energy_present = true →
        ∃ tbl, (init_sched_energy n o init0).energy_model = some tbl ∧
          tbl.length = n ∧
          DomsOK o n tbl
            (init_sched_energy n o init0).sched_freq_domains
            (init_sched_energy n o init0).em_heap ∧
          (∀ c, c < n → (tbl.getD c none).isSome = true →
            ∃ fd, fd ∈ (init_sched_energy n o init0).sched_freq_domains ∧
              c ∈ fd.span) ∧
          (∀ c, c < n → (tbl.getD c none).isSome = true)) ∧
    ((init_sched_energy n o init0).sched_energy_present = false →
        (init_sched_energy n o init0).sched_freq_domains = [] ∧
        (init_sched_energy n o init0).energy_model = none ∧
        (init_sched_energy n o init0).em_heap = [] ∧
        (init_sched_energy n o init0).freed_ems.Nodup) := by
  by_cases ha : o.sd_asym = false
  · rw [init_sched_energy_noasym n o init0 ha]
    constructor
    · intro hx
      simp [init0] at hx
    · intro _
      exact ⟨rfl, rfl, rfl, List.nodup_nil⟩
  · have ha2 : o.sd_asym = true := by
      rcases hb : o.sd_asym
      · exact absurd hb ha
      · rfl
    by_cases hp : o.percpu_ok = false
    · rw [init_sched_energy_nopercpu n o init0 ha2 hp]
      constructor
      · intro hx
        simp [init0] at hx
      · intro _
        exact ⟨rfl, rfl, rfl, List.nodup_nil⟩
    · have hp2 : o.percpu_ok = true := by
        rcases hb : o.percpu_ok
        · exact absurd hb hp
        · rfl
      have hInv0 : PassInv o n (init_tbl0 n) := by
        refine ⟨List.replicate n none, rfl, List.length_replicate _ _,
          ?_, ?_, rfl, rfl, ?_⟩
        · simp [DomsOK, init_tbl0, init0]
        · intro c hc hsome
          rw [getD_replicate_none] at hsome
          simp at hsome
        · intro e he
          exact absurd he (List.not_mem_nil e)
      have hspec := init_cpus_spec o n HS (List.range n) (init_tbl0 n)
        (fun c hc => List.mem_range.mp hc) hInv0
      by_cases hok : (init_cpus n o (List.range n) (init_tbl0 n)).2 = true
      · rw [init_sched_energy_run_ok n o ha2 hp2 hok]
        obtain ⟨⟨tbl, htbl, hlen, hdm, hcov, hfr, hpres, hfresh⟩,
          hass, hkeep⟩ := hspec.1 hok
        constructor
        · intro _
          refine ⟨tbl, htbl, hlen, hdm, hcov, ?_⟩
          intro c hcn
          have h1 := hass c (List.mem_range.mpr hcn)
          have h2 : (((init_cpus n o (List.range n)
              (init_tbl0 n)).1.energy_model.getD []).getD c
                none).isSome = true := h1
          rw [htbl] at h2
          simpa using h2
        · intro hx
          simp at hx
      · have hok2 : (init_cpus n o (List.range n) (init_tbl0 n)).2
            = false := by
          simpa using hok
        rw [init_sched_energy_run_fail n o ha2 hp2 hok2]
        have hr := hspec.2 hok2
        constructor
        · intro hx
          rw [hr.2.2.2.1] at hx
          simp at hx
        · intro _
          exact ⟨hr.1, hr.2.1, hr.2.2.1, hr.2.2.2.2⟩

/-- Association lookup on a heap with pairwise distinct ids. -/
lemma find_key (ms : List (Nat × sched_energy_model)) (mid : Nat)
    (em : sched_energy_model) (hmem : (mid, em) ∈ ms)
    (hnd : (ms.map Prod.fst).Nodup) :
    ms.find? (fun e => e.1 == mid) = some (mid, em) := by
  induction ms with
  | nil => exact absurd hmem (List.not_mem_nil _)
  | cons a rest ih =>
    rw [List.find?_cons]
    simp only [List.map_cons, List.nodup_cons] at hnd
    by_cases hb : a.1 = mid
    · have hbt : (a.1 == mid) = true := by simp [hb]
      simp only [hbt]
      rcases List.mem_cons.mp hmem with heq | hmem2
      · rw [← heq]
      · exfalso
        exact hnd.1 (hb ▸ List.mem_map.mpr ⟨(mid, em), hmem2, rfl⟩)
    · have hbt : (a.1 == mid) = false := by simp [hb]
      simp only [hbt]
      have hmem2 : (mid, em) ∈ rest := by
        rcases List.mem_cons.mp hmem with heq | hmem2
        · exact absurd (congrArg Prod.fst heq.symm) hb
        · exact hmem2
      exact ih hmem2 hnd.2

/-- C3: on a platform whose sharing collaborator satisfies its partition
contract, every failing pass of the publisher past the asymmetry check
ends fully rolled back: the domain list is empty, the per-cpu table is
freed, no EnergyModel allocation survives from any earlier successful
iteration, the readiness flag is off, and the sequence of freed model
records has no duplicate, so each owning EnergyModel was freed at most
once even though every cpu of its span references it. -/
theorem C3_failed_pass_rolls_back (n : Nat) (o : InitOracle)
    (HS : SharingOK o n) (ha : o.sd_asym = true)
    (hfail : (init_sched_energy n o init0).sched_energy_present = false) :
    (init_sched_energy n o init0).sched_freq_domains = [] ∧
    (init_sched_energy n o init0).energy_model = none ∧
    (init_sched_energy n o init0).em_heap = [] ∧
    (init_sched_energy n o init0).sched_energy_present = false ∧
    (init_sched_energy n o init0).freed_ems.Nodup := by
  have h := (init_sched_energy_spec o n HS).2 hfail
  exact ⟨h.1, h.2.1, h.2.2.1, hfail, h.2.2.2⟩

/-- The o3f sharing collaborator satisfies the partition contract. -/
lemma SharingOK_o3f : SharingOK o3f 1 := by
  intro c hc sp hsp
  have hc0 : c = 0 := by omega
  subst hc0
  have hsp2 : sp = [0] := by
    have h : (some [0] : Option (List Nat)) = some sp := hsp
    exact (Option.some.inj h).symm
  subst hsp2
  refine ⟨by simp, ?_, ?_⟩
  · intro c2 h
    have : c2 = 0 := by simpa using h
    omega
  · intro c2 h
    have h2 : c2 = 0 := by simpa using h
    subst h2
    rfl

/-- Witness run of C3: a builder failure on the only domain. -/
theorem C3_witness :
    (init_sched_energy 1 o3f init0).sched_freq_domains = [] ∧
    (init_sched_energy 1 o3f init0).energy_model = none ∧
    (init_sched_energy 1 o3f init0).em_heap = [] ∧
    (init_sched_energy 1 o3f init0).sched_energy_present = false ∧
    (init_sched_energy 1 o3f init0).freed_ems.Nodup :=
  C3_failed_pass_rolls_back 1 o3f SharingOK_o3f rfl (by decide)

/-- C4 is violated by the code: when the rail-span query of an iteration
fails, the freq_domain record kzalloc-ed in that iteration is not yet on
the domain list (the goto free_em precedes the list_add), and the
rollback frees only listed records, so the record leaks. After the run
the record with id 0 is still allocated while the freed list is empty,
and nothing else survives: the rollback is otherwise complete but the net
allocation is not zero, contradicting the exactly-one-free claim. -/
theorem C4_fdom_leak_on_sharing_failure :
    (init_sched_energy 1 oC4 init0).live_fdoms = [0] ∧
    (init_sched_energy 1 oC4 init0).freed_fdoms = [] ∧
    (init_sched_energy 1 oC4 init0).em_heap = [] ∧
    (init_sched_energy 1 oC4 init0).energy_model = none ∧
    (init_sched_energy 1 oC4 init0).sched_energy_present = false := by
  decide

/-- C6: the readiness flag read by sched_energy_enabled is false in the
pristine state, and in every reachable state (pristine, or after the one
guarded pass on a partition-respecting platform) the flag is true exactly
when every modeled unit of the system is mapped to a live fully
constructed EnergyModel; the flag becomes true only as the last step of a
fully successful pass and there is no transition that clears it. -/
theorem C6_flag_iff_fully_mapped :
    sched_energy_enabled init0 = false ∧
    (∀ n s, Reachable n s →
      (sched_energy_enabled s = true ↔ FullyMapped n s)) := by
  refine ⟨rfl, ?_⟩
  intro n s hr
  rcases hr with _ | ⟨o, hs⟩
  · constructor
    · intro hx
      simp [sched_energy_enabled, init0] at hx
    · intro hfm
      obtain ⟨tbl, htbl, -⟩ := hfm
      simp [init0] at htbl
  · by_cases hp : (init_sched_energy n o init0).sched_energy_present = true
    · obtain ⟨tbl, htbl, hlen, hdm, hcov, hall⟩ :=
        (init_sched_energy_spec o n hs).1 hp
      have hfm : FullyMapped n (init_sched_energy n o init0) := by
        refine ⟨tbl, htbl, hlen, ?_⟩
        intro c hc
        obtain ⟨fd, hfd, hcfd⟩ := hcov c hc (hall c hc)
        obtain ⟨-, -, -, mid, em, hass, -, hmem⟩ :=
          DomsOK_mem o n tbl _ _ hdm fd hfd
        exact ⟨mid, em, hass c hcfd, hmem⟩
      constructor
      · intro _
        exact hfm
      · intro _
        exact hp
    · have hp2 : (init_sched_energy n o init0).sched_energy_present
          = false := by
        simpa using hp
      have hroll := (init_sched_energy_spec o n hs).2 hp2
      constructor
      · intro hx
        exact absurd hx hp
      · intro hfm
        obtain ⟨tbl, htbl, -⟩ := hfm
        rw [hroll.2.1] at htbl
        simp at htbl

/-- Witness instance of C6 at the pristine state. -/
theorem C6_witness :
    sched_energy_enabled init0 = false ∧
    (sched_energy_enabled init0 = true ↔ FullyMapped 1 init0) :=
  ⟨C6_flag_iff_fully_mapped.1,
   C6_flag_iff_fully_mapped.2 1 init0 Reachable.boot⟩

/-- C7: after a fully successful pass on a partition-respecting platform,
every domain on the list maps each cpu of its span to the same stored
model id as the first (lowest) cpu of the span — one shared object, not a
copy — and dereferencing that id yields exactly the model the Builder
returned for the lowest cpu id of the span, which is the representative
the publisher invoked it on. -/
theorem C7_lowest_cpu_shared_model (n : Nat) (o : InitOracle)
    (HS : SharingOK o n)
    (hok : (init_sched_energy n o init0).sched_energy_present = true) :
    ∀ fd, fd ∈ (init_sched_energy n o init0).sched_freq_domains →
      (∀ c, c ∈ fd.span →
        ((init_sched_energy n o init0).energy_model.getD []).getD c none =
          ((init_sched_energy n o init0).energy_model.getD []).getD
            (cpumask_first n fd.span) none ∧
        (((init_sched_energy n o init0).energy_model.getD []).getD c
          none).isSome = true) ∧
      deref_model (init_sched_energy n o init0) (cpumask_first n fd.span) =
        o.build (cpumask_first n fd.span) ∧
      cpumask_first n fd.span ∈ fd.span ∧
      (∀ c, c ∈ fd.span → cpumask_first n fd.span ≤ c) := by
  intro fd hfd
  obtain ⟨tbl, htbl, hlen, hdm, hcov, hall⟩ :=
    (init_sched_energy_spec o n HS).1 hok
  obtain ⟨hne, hltn, -, mid, em, hass, hbd, hmem⟩ :=
    DomsOK_mem o n tbl _ _ hdm fd hfd
  have hgd : (init_sched_energy n o init0).energy_model.getD [] = tbl := by
    rw [htbl]
    rfl
  have hfirst : cpumask_first n fd.span ∈ fd.span :=
    cpumask_first_mem n fd.span hne hltn
  refine ⟨?_, ?_, hfirst, fun c hc => cpumask_first_le n fd.span c hc⟩
  · intro c hc
    rw [hgd, hass c hc, hass _ hfirst]
    exact ⟨rfl, rfl⟩
  · unfold deref_model
    rw [hgd, hass _ hfirst]
    show Option.map Prod.snd ((init_sched_energy n o
      init0).em_heap.find? (fun e => e.1 == mid)) =
        o.build (cpumask_first n fd.span)
    rw [find_key _ mid em hmem (DomsOK_nodup o n tbl _ _ hdm), hbd]
    rfl

/-- The oGood sharing collaborator satisfies the partition contract. -/
lemma SharingOK_oGood : SharingOK oGood 1 := by
  intro c hc sp hsp
  have hc0 : c = 0 := by omega
  subst hc0
  have hsp2 : sp = [0] := by
    have h : (some [0] : Option (List Nat)) = some sp := hsp
    exact (Option.some.inj h).symm
  subst hsp2
  refine ⟨by simp, ?_, ?_⟩
  · intro c2 h
    have : c2 = 0 := by simpa using h
    omega
  · intro c2 h
    have h2 : c2 = 0 := by simpa using h
    subst h2
    rfl

/-- Witness run of C7 on the one-domain platform. -/
theorem C7_witness :
    deref_model (init_sched_energy 1 oGood init0)
        (cpumask_first 1 (⟨0, [0]⟩ : freq_domain).span) =
      oGood.build (cpumask_first 1 (⟨0, [0]⟩ : freq_domain).span) ∧
    cpumask_first 1 (⟨0, [0]⟩ : freq_domain).span ∈
      (⟨0, [0]⟩ : freq_domain).span :=
  ⟨(C7_lowest_cpu_shared_model 1 oGood SharingOK_oGood (by decide)
      ⟨0, [0]⟩ (by decide)).2.1,
   (C7_lowest_cpu_shared_model 1 oGood SharingOK_oGood (by decide)
      ⟨0, [0]⟩ (by decide)).2.2.1⟩
